import Mathlib

/-!
# Verification of the AIPartnerDetector duplicate-detection engine

Shallow embedding of the Python backend (`src/backend/src`) of the
AIPartnerDetector repository, together with proofs and refutations of the
specification claims about it.

Strings are modelled as lists of Unicode code points (`List Nat`).  The
character-level primitives (`pyLower`, `nfdDecomp`, `isMn`, `isPySpace`,
`isAlphaCp`) faithfully reproduce Python's behaviour on the ASCII and
Latin-1 repertoire that the institution data uses; outside that repertoire
a character is treated as caseless and indecomposable.  Python `float`
arithmetic on similarity scores is modelled by exact rationals (`ℚ`).
-/

namespace PartnerDetector

/-- Code points Python treats as whitespace (`str.strip`, regex `\s`),
restricted to the Latin-1 range plus the common Unicode space blocks. -/
def isPySpace (c : Nat) : Bool :=
  (9 ≤ c && c ≤ 13) || c == 28 || c == 29 || c == 30 || c == 31 || c == 32 ||
    c == 133 || c == 160 || c == 5760 || (8192 ≤ c && c ≤ 8202) ||
    c == 8232 || c == 8233 || c == 8239 || c == 8287 || c == 12288

/-- Python `str.lower` on one code point (ASCII and Latin-1 uppercase
letters; `×` U+00D7 is not a letter). -/
def pyLower (c : Nat) : Nat :=
  if 65 ≤ c ∧ c ≤ 90 then c + 32
  else if 192 ≤ c ∧ c ≤ 222 ∧ c ≠ 215 then c + 32
  else c

/-- Python `str.upper` on one code point (same repertoire). -/
def pyUpper (c : Nat) : Nat :=
  if 97 ≤ c ∧ c ≤ 122 then c - 32
  else if 224 ≤ c ∧ c ≤ 254 ∧ c ≠ 247 then c - 32
  else c

/-- Decomposition table for the lowercase Latin-1 accented letters. -/
def nfdDecompTable (c : Nat) : List Nat :=
  if c = 224 then [97, 768]        -- à
  else if c = 225 then [97, 769]   -- á
  else if c = 226 then [97, 770]   -- â
  else if c = 228 then [97, 776]   -- ä
  else if c = 231 then [99, 807]   -- ç
  else if c = 232 then [101, 768]  -- è
  else if c = 233 then [101, 769]  -- é
  else if c = 234 then [101, 770]  -- ê
  else if c = 235 then [101, 776]  -- ë
  else if c = 237 then [105, 769]  -- í
  else if c = 241 then [110, 771]  -- ñ
  else if c = 243 then [111, 769]  -- ó
  else if c = 246 then [111, 776]  -- ö
  else if c = 250 then [117, 769]  -- ú
  else if c = 252 then [117, 776]  -- ü
  else [c]

/-- Canonical (NFD) decomposition of one code point, for the lowercase
Latin-1 accented letters that survive `pyLower`.  Other code points are
their own decomposition. -/
def nfdDecomp (c : Nat) : List Nat :=
  if 224 ≤ c ∧ c ≤ 252 then nfdDecompTable c else [c]

/-- Unicode category Mn (nonspacing combining marks), restricted to the
Combining Diacritical Marks block U+0300–U+036F used by the decompositions
above. -/
def isMn (c : Nat) : Bool := 768 ≤ c && c ≤ 879

/-- Python `str.strip()`: drop whitespace from both ends. -/
def pyStrip (l : List Nat) : List Nat :=
  ((l.dropWhile isPySpace).reverse.dropWhile isPySpace).reverse

/-- `re.sub(r"\s+", " ", ·)`: every maximal whitespace run becomes one
space.  The boolean argument records whether the previous character was
part of a whitespace run. -/
def collapseAux : Bool → List Nat → List Nat
  | _, [] => []
  | true, c :: rest =>
    if isPySpace c then collapseAux true rest else c :: collapseAux false rest
  | false, c :: rest =>
    if isPySpace c then 32 :: collapseAux true rest else c :: collapseAux false rest

def collapseWs (l : List Nat) : List Nat := collapseAux false l

/-- `normalization.normalize_text`: lowercase, strip, NFD-decompose,
remove combining marks, collapse whitespace (empty input → empty). -/
def normalize_text (s : List Nat) : List Nat :=
  collapseWs ((((pyStrip (s.map pyLower)).map nfdDecomp).flatten).filter
    (fun c => !(isMn c)))

/-- `normalization.normalize_acronym`: `re.sub(r"[^a-z0-9]", "", s.lower())`. -/
def keepAcr (c : Nat) : Bool := (97 ≤ c && c ≤ 122) || (48 ≤ c && c ≤ 57)

def normalize_acronym (s : List Nat) : List Nat :=
  (s.map pyLower).filter keepAcr

/-- Convert a Lean string literal to the code-point list model. -/
def ofStr (s : String) : List Nat := s.data.map Char.toNat

/-- `true` iff the list never has two adjacent whitespace characters. -/
def noTwoSpaces : List Nat → Bool
  | c :: d :: rest => (!(isPySpace c && isPySpace d)) && noTwoSpaces (d :: rest)
  | _ => true

/-- `true` iff the list is empty or starts with a non-whitespace character. -/
def firstNotSpace : List Nat → Bool
  | [] => true
  | c :: _ => !(isPySpace c)

/-- The claim's reading of `normalize_acronym`: uppercase the string and
delete only whitespace, periods and hyphens (written from the spec's words,
to be compared with the source's definition). -/
def normalize_acronym_claimed (s : List Nat) : List Nat :=
  (s.filter (fun c => !(isPySpace c || c == 46 || c == 45))).map pyUpper

/-! ### Generic string scanning (for `normalize_url` and the matchers) -/

/-- `swL pat l`: `l` starts with `pat`. -/
def swL : List Nat → List Nat → Bool
  | [], _ => true
  | _ :: _, [] => false
  | p :: ps, c :: cs => p == c && swL ps cs

/-- Python `pat in l`: `pat` occurs as a contiguous substring of `l`. -/
def containsSub (pat : List Nat) : List Nat → Bool
  | [] => swL pat []
  | c :: rest => swL pat (c :: rest) || containsSub pat rest

/-- Helper for `replaceAllL`: the `Nat` argument counts characters of a
just-matched occurrence that remain to be skipped. -/
def replAllAux (pat rep : List Nat) : Nat → List Nat → List Nat
  | _, [] => []
  | 0, c :: rest =>
    if swL pat (c :: rest) then rep ++ replAllAux pat rep (pat.length - 1) rest
    else c :: replAllAux pat rep 0 rest
  | k + 1, _ :: rest => replAllAux pat rep k rest

/-- Python `l.replace(pat, rep)`: replace every non-overlapping occurrence,
left to right (only used with non-empty patterns). -/
def replaceAllL (pat rep l : List Nat) : List Nat := replAllAux pat rep 0 l

/-- Python `l.replace(pat, rep, 1)`: replace the first occurrence only. -/
def replaceFirstL (pat rep : List Nat) : List Nat → List Nat
  | [] => []
  | c :: rest =>
    if swL pat (c :: rest) then rep ++ rest.drop (pat.length - 1)
    else c :: replaceFirstL pat rep rest

/-- Python `url.rstrip("/")`. -/
def rstripSlash (l : List Nat) : List Nat :=
  (l.reverse.dropWhile (· == 47)).reverse

def httpPre : List Nat := ofStr "http://"
def httpsPre : List Nat := ofStr "https://"
def httpsWww : List Nat := ofStr "https://www."
def wwwDot : List Nat := ofStr "www."

/-- `normalization.normalize_url`, line by line from the source: strip and
lowercase, strip trailing slashes, add `https://` if no scheme, rewrite
every `http://` to `https://`, delete every `https://www.`, then the
final `www`-insertion/removal round trip (a net no-op). -/
def normalize_url (s : List Nat) : List Nat :=
  if s = [] then []
  else
    let u1 := (pyStrip s).map pyLower
    let u2 := rstripSlash u1
    let u3 := if swL httpPre u2 || swL httpsPre u2 then u2 else httpsPre ++ u2
    let u4 := replaceAllL httpPre httpsPre u3
    let u5 := replaceAllL httpsWww httpsPre u4
    if containsSub httpsPre u5 && !(containsSub wwwDot u5) then
      replaceAllL httpsWww httpsPre (replaceFirstL httpsPre httpsWww u5)
    else u5

/-- Helper for `wordsOf`: `cur` is the current word, reversed. -/
def wordsOfAux : List Nat → List Nat → List (List Nat)
  | cur, [] => if cur = [] then [] else [cur.reverse]
  | cur, c :: rest =>
    if isPySpace c then
      if cur = [] then wordsOfAux [] rest else cur.reverse :: wordsOfAux [] rest
    else wordsOfAux (c :: cur) rest

/-- Python `s.split()`: maximal runs of non-whitespace characters. -/
def wordsOf (l : List Nat) : List (List Nat) := wordsOfAux [] l

/-! ### difflib.SequenceMatcher

`fuzzy_match_score` computes `SequenceMatcher(None, s1, s2).ratio()`.
The model reproduces difflib: the `b2j` index with the autojunk rule,
`find_longest_match` with its strictly-greater best update (earliest end
row, then earliest column, wins ties) and the two non-junk extension
loops (`isjunk` is `None`, so the junk set is empty and the junk
extension loops never fire), the recursive block decomposition of
`get_matching_blocks`, and `ratio = 2*M/(len(a)+len(b))` (with `1.0` for
two empty sequences).  The recursion of the block decomposition is run on
a fuel that strictly dominates its depth, so the fuel never runs out. -/

/-- Autojunk: for `len(b) ≥ 200`, elements occurring more than
`len(b)/100 + 1` times are "popular" and dropped from the index. -/
def isPopular (b : List Nat) (x : Nat) : Bool :=
  200 ≤ b.length && b.length / 100 + 1 < b.count x

/-- The indices `j ∈ [blo, bhi)` with `b[j] = x` (difflib's `b2j[x]`
restricted to the window), in increasing order. -/
def rowJs (b : List Nat) (x blo bhi : Nat) : List Nat :=
  (List.range bhi).filter (fun j => decide (blo ≤ j) && (b.get? j == some x))

/-- Current best block of `find_longest_match`. -/
structure FlmState where
  besti : Nat
  bestj : Nat
  bestsize : Nat
deriving DecidableEq

/-- One row `i` of the `find_longest_match` dynamic programming: walk the
matching columns `js` in increasing order, building the new run-length
table and updating the best block on strictly longer runs. -/
def rowFold (i : Nat) (j2 : Nat → Nat) :
    List Nat → (Nat → Nat) → FlmState → ((Nat → Nat) × FlmState)
  | [], acc, best => (acc, best)
  | j :: js, acc, best =>
    let k := (if j = 0 then 0 else j2 (j - 1)) + 1
    let acc' := fun j' => if j' = j then k else acc j'
    let best' : FlmState :=
      if best.bestsize < k then ⟨i + 1 - k, j + 1 - k, k⟩ else best
    rowFold i j2 js acc' best'

/-- The outer row loop of `find_longest_match`: `rows` rows remain,
starting at row `i`. -/
def flmRows (a b : List Nat) (blo bhi : Nat) :
    Nat → Nat → (Nat → Nat) → FlmState → FlmState
  | _, 0, _, best => best
  | i, rows + 1, j2, best =>
    let js := match a.get? i with
      | none => []
      | some x => if isPopular b x then [] else rowJs b x blo bhi
    let p := rowFold i j2 js (fun _ => 0) best
    flmRows a b blo bhi (i + 1) rows p.1 p.2

/-- The left non-junk extension loop of `find_longest_match` (the junk set
is empty, so the condition is equality of the neighbouring elements). -/
def extLeft (a b : List Nat) (alo blo : Nat) : Nat → FlmState → FlmState
  | 0, st => st
  | fuel + 1, st =>
    if alo < st.besti ∧ blo < st.bestj ∧ (a.get? (st.besti - 1)).isSome ∧
        a.get? (st.besti - 1) = b.get? (st.bestj - 1) then
      extLeft a b alo blo fuel ⟨st.besti - 1, st.bestj - 1, st.bestsize + 1⟩
    else st

/-- The right non-junk extension loop of `find_longest_match`. -/
def extRight (a b : List Nat) (ahi bhi : Nat) : Nat → FlmState → FlmState
  | 0, st => st
  | fuel + 1, st =>
    if st.besti + st.bestsize < ahi ∧ st.bestj + st.bestsize < bhi ∧
        (a.get? (st.besti + st.bestsize)).isSome ∧
        a.get? (st.besti + st.bestsize) = b.get? (st.bestj + st.bestsize) then
      extRight a b ahi bhi fuel ⟨st.besti, st.bestj, st.bestsize + 1⟩
    else st

/-- `SequenceMatcher.find_longest_match` on the window
`a[alo:ahi]`, `b[blo:bhi]`. -/
def findLongestMatch (a b : List Nat) (alo ahi blo bhi : Nat) : FlmState :=
  let base := flmRows a b blo bhi alo (ahi - alo) (fun _ => 0) ⟨alo, blo, 0⟩
  extRight a b ahi bhi ahi (extLeft a b alo blo base.besti base)

/-- Total size of the matching blocks of `get_matching_blocks`, by the
recursive decomposition around each longest match. -/
def matchTotalAux (a b : List Nat) : Nat → Nat → Nat → Nat → Nat → Nat
  | 0, _, _, _, _ => 0
  | fuel + 1, alo, ahi, blo, bhi =>
    let st := findLongestMatch a b alo ahi blo bhi
    if st.bestsize = 0 then 0
    else
      matchTotalAux a b fuel alo st.besti blo st.bestj + st.bestsize +
        matchTotalAux a b fuel (st.besti + st.bestsize) ahi
          (st.bestj + st.bestsize) bhi

def matchTotal (a b : List Nat) : Nat :=
  matchTotalAux a b (a.length + b.length + 1) 0 a.length 0 b.length

/-- `SequenceMatcher(None, a, b).ratio()`. -/
def smRatio (a b : List Nat) : ℚ :=
  if a.length + b.length = 0 then 1
  else (2 * matchTotal a b : ℚ) / ((a.length : ℚ) + (b.length : ℚ))

/-- `advanced_matching.fuzzy_match_score`: normalize both strings, then
`SequenceMatcher` ratio against the threshold. -/
def fuzzy_match_score (str1 str2 : List Nat) (threshold : ℚ) : Bool × ℚ :=
  if str1 = [] ∨ str2 = [] then (false, 0)
  else
    let r := smRatio (normalize_text str1) (normalize_text str2)
    (decide (threshold ≤ r), r)

/-! ### Number formatting (Python `f"{x:.2f}"`, `f"{x:.0%}"`)

Python formats floats with round-half-to-even; the model applies the same
rounding to the exact rational score. -/

/-- Round half to even. -/
def rhEven (q : ℚ) : ℤ :=
  if q - q.floor < 1/2 then q.floor
  else if (1 : ℚ)/2 < q - q.floor then q.floor + 1
  else if q.floor % 2 = 0 then q.floor else q.floor + 1

def natToL (n : Nat) : List Nat := ofStr (toString n)

def intToL (z : ℤ) : List Nat :=
  if z < 0 then 45 :: natToL z.natAbs else natToL z.natAbs

/-- Python `f"{q:.0%}"`. -/
def formatPct0 (q : ℚ) : List Nat := intToL (rhEven (q * 100)) ++ [37]

def format2fOfHundredths (n : Nat) : List Nat :=
  natToL (n / 100) ++ [46] ++ (if n % 100 < 10 then [48] else []) ++ natToL (n % 100)

/-- Python `f"{q:.2f}"`. -/
def format2f (q : ℚ) : List Nat :=
  let n := rhEven (q * 100)
  if n < 0 then 45 :: format2fOfHundredths n.natAbs else format2fOfHundredths n.natAbs

/-! ### advanced_matching: acronym and keyword strategies -/

/-- `advanced_matching.ACRONYM_DATABASE`. -/
def ACRONYM_DATABASE : List (List Nat × List (List Nat)) := [
  (ofStr "cimmyt", [ofStr "international maize and wheat improvement center",
    ofStr "centro internacional de mejoramiento de maiz y trigo"]),
  (ofStr "icrisat", [ofStr "international crops research institute for the semi-arid tropics"]),
  (ofStr "irri", [ofStr "international rice research institute"]),
  (ofStr "ciat", [ofStr "international center for tropical agriculture",
    ofStr "centro internacional de agricultura tropical"]),
  (ofStr "icraf", [ofStr "world agroforestry centre",
    ofStr "international council for research in agroforestry"]),
  (ofStr "worldfish", [ofStr "worldfish centre", ofStr "world fish center"]),
  (ofStr "bioversity", [ofStr "bioversity international"]),
  (ofStr "cgiar", [ofStr "consultative group on international agricultural research"]),
  (ofStr "fao", [ofStr "food and agriculture organization"]),
  (ofStr "undp", [ofStr "united nations development programme"]),
  (ofStr "unep", [ofStr "united nations environment programme"]),
  (ofStr "icarda", [ofStr "international center for agricultural research in the dry areas"]),
  (ofStr "wur", [ofStr "wageningen university", ofStr "wageningen university and research"]),
  (ofStr "eth", [ofStr "swiss federal institute of technology", ofStr "eth zurich"]),
  (ofStr "cornell", [ofStr "cornell university"]),
  (ofStr "berkeley", [ofStr "university of california", ofStr "uc berkeley"])]

/-- `advanced_matching.get_acronym_expansions`: keys matching by substring
containment in either direction contribute their expansions, in database
order. -/
def get_acronym_expansions (acronym : List Nat) : List (List Nat) :=
  let na := (normalize_acronym acronym).map pyLower
  ACRONYM_DATABASE.foldl (fun acc kv =>
    if containsSub kv.1 na || containsSub na kv.1 then acc ++ kv.2 else acc) []

/-- `re.findall(r'\(([^)]+)\)|\[([^\]]+)\]', ·)`: the non-empty contents of
parenthesized/bracketed groups, scanning left to right over non-overlapping
matches.  The fuel decreases on every recursive call and starts above the
string length, so it never runs out. -/
def scanParensF : Nat → List Nat → List (List Nat)
  | 0, _ => []
  | _, [] => []
  | fuel + 1, c :: rest =>
    if c = 40 then
      match rest.dropWhile (· ≠ 41) with
      | 41 :: rest' =>
        if rest.takeWhile (· ≠ 41) ≠ [] then
          rest.takeWhile (· ≠ 41) :: scanParensF fuel rest'
        else scanParensF fuel rest
      | _ => scanParensF fuel rest
    else if c = 91 then
      match rest.dropWhile (· ≠ 93) with
      | 93 :: rest' =>
        if rest.takeWhile (· ≠ 93) ≠ [] then
          rest.takeWhile (· ≠ 93) :: scanParensF fuel rest'
        else scanParensF fuel rest
      | _ => scanParensF fuel rest
    else scanParensF fuel rest

def scanParens (l : List Nat) : List (List Nat) := scanParensF (l.length + 1) l

/-- Python `str.isalpha` on one code point (ASCII and Latin-1 letters). -/
def isAlphaCp (c : Nat) : Bool :=
  (65 ≤ c && c ≤ 90) || (97 ≤ c && c ≤ 122) ||
    (192 ≤ c && c ≤ 255 && c != 215 && c != 247)

/-- `advanced_matching.acronym_match_score`: (1) exact match against a
parenthesized/bracketed group, (2) knowledge-base expansion with fuzzy
support at 0.8, (3) strict first-letter generation, else no match. -/
def acronym_match_score (institution_name acronym : List Nat) : Bool × ℚ :=
  if institution_name = [] ∨ acronym = [] then (false, 0)
  else
    let normalized_name := normalize_text institution_name
    let normalized_acronym := (normalize_acronym acronym).map pyUpper
    if (scanParens normalized_name).any (fun content =>
        normalized_acronym.map pyLower == pyStrip (content.map pyLower)) then
      (true, 95/100)
    else
      let expansions := get_acronym_expansions normalized_acronym
      if expansions.any (fun e => (fuzzy_match_score normalized_name e (8/10)).1) then
        (true, 92/100)
      else
        let words := wordsOf normalized_name
        if 2 ≤ words.length ∧ 2 ≤ normalized_acronym.length then
          let generated := words.filterMap (fun w =>
            match w with
            | [] => none
            | c :: _ => if isAlphaCp c then some (pyUpper c) else none)
          if generated = normalized_acronym then (true, 85/100) else (false, 0)
        else (false, 0)

/-- The stop/generic word set of
`advanced_matching.keyword_overlap_score.extract_meaningful_keywords`
(the source lists `"foundation"` twice; the set has it once). -/
def stopWordsKW : List (List Nat) := [
  ofStr "and", ofStr "or", ofStr "the", ofStr "a", ofStr "an", ofStr "of",
  ofStr "in", ofStr "for", ofStr "to", ofStr "is",
  ofStr "international", ofStr "center", ofStr "centre", ofStr "institute",
  ofStr "organization", ofStr "organisation", ofStr "foundation",
  ofStr "university", ofStr "college", ofStr "school", ofStr "academy",
  ofStr "research", ofStr "consultative", ofStr "council", ofStr "network",
  ofStr "association", ofStr "society", ofStr "board", ofStr "service",
  ofStr "development", ofStr "cooperation", ofStr "programme"]

def extract_meaningful_keywords (text : List Nat) : Finset (List Nat) :=
  (wordsOf (normalize_text text)).toFinset \ stopWordsKW.toFinset

/-- `advanced_matching.keyword_overlap_score`: Jaccard similarity over
meaningful keyword sets, gated by the overlap count. -/
def keyword_overlap_score (name1 name2 : List Nat) (min_overlap : Nat) : Bool × ℚ :=
  if name1 = [] ∨ name2 = [] then (false, 0)
  else
    let keywords1 := extract_meaningful_keywords name1
    let keywords2 := extract_meaningful_keywords name2
    if keywords1 = ∅ ∨ keywords2 = ∅ then (false, 0)
    else
      let overlap := keywords1 ∩ keywords2
      if min_overlap ≤ overlap.card then
        (true, (overlap.card : ℚ) / ((keywords1 ∪ keywords2).card : ℚ))
      else (false, 0)

/-! ### advanced_matching.multi_strategy_match -/

structure MSMResult where
  match_type : List Nat
  confidence : ℚ
  signals : List (List Nat)
  explanation : List Nat
deriving DecidableEq

def msmNoMatch : MSMResult :=
  ⟨ofStr "no_match", 0, [], ofStr "No matching signals detected"⟩

/-- The acronym branch (strategy 2) of `multi_strategy_match`: `none`
models falling through to the fuzzy strategy.  The source's control flow
(`if norm_uploaded_acr == norm_clarisa_acr:` with two nested returns whose
failing conditions fall through to the directional checks) is written as
one flat condition chain; the fuzzy score of the two names is a pure value
so hoisting it into a `let` does not change any branch. -/
def msmAcronymBranch (uploaded_name uploaded_acronym clarisa_name clarisa_acronym :
    List Nat) : Option MSMResult :=
  if uploaded_acronym = [] ∨ clarisa_acronym = [] then none
  else
    let nu := (normalize_acronym uploaded_acronym).map pyUpper
    let nc := (normalize_acronym clarisa_acronym).map pyUpper
    let kbKnown := (ACRONYM_DATABASE.map (fun kv => kv.1.map pyUpper)).contains nu
    let fz := fuzzy_match_score uploaded_name clarisa_name (7/10)
    if nu = nc ∧ kbKnown = true ∧ (fz.1 = true ∨ (13/20 : ℚ) < fz.2) then
      let conf := max (9/10 : ℚ) fz.2
      some ⟨ofStr "acronym", conf, [ofStr "acronym_match_" ++ format2f conf],
        ofStr "Same acronym '" ++ nu ++ ofStr "' with similar names"⟩
    else if nu = nc ∧ kbKnown = false ∧
        normalize_text uploaded_name = normalize_text clarisa_name then
      some ⟨ofStr "acronym", 9/10, [ofStr "acronym_match_exact_names"],
        ofStr "Same acronym with identical names"⟩
    else
      let am1 := acronym_match_score clarisa_name uploaded_acronym
      if am1.1 then
        some ⟨ofStr "acronym", am1.2, [ofStr "acronym_match_" ++ format2f am1.2],
          ofStr "Acronym '" ++ uploaded_acronym ++
            ofStr "' matches institution name (confidence: " ++
            formatPct0 am1.2 ++ ofStr ")"⟩
      else
        let am2 := acronym_match_score uploaded_name clarisa_acronym
        if am2.1 then
          some ⟨ofStr "acronym", am2.2, [ofStr "acronym_match_" ++ format2f am2.2],
            ofStr "Institution matches acronym '" ++ clarisa_acronym ++
              ofStr "' (confidence: " ++ formatPct0 am2.2 ++ ofStr ")"⟩
        else none

/-- `advanced_matching.multi_strategy_match`: the five-strategy cascade. -/
def multi_strategy_match (uploaded_name uploaded_acronym clarisa_name clarisa_acronym :
    List Nat) : MSMResult :=
  if normalize_text uploaded_name = normalize_text clarisa_name then
    ⟨ofStr "exact", 1, [ofStr "exact_name_match"], ofStr "Exact institution name match"⟩
  else
    match msmAcronymBranch uploaded_name uploaded_acronym clarisa_name clarisa_acronym with
    | some r => r
    | none =>
      let fz := fuzzy_match_score uploaded_name clarisa_name (3/4)
      if fz.1 = true ∧ (17/20 : ℚ) ≤ fz.2 then
        ⟨ofStr "fuzzy", fz.2, [ofStr "fuzzy_match_" ++ format2f fz.2],
          ofStr "Fuzzy match on institution name (similarity: " ++
            formatPct0 fz.2 ++ ofStr ")"⟩
      else
        let kw := keyword_overlap_score uploaded_name clarisa_name 2
        if kw.1 = true ∧ (7/10 : ℚ) ≤ kw.2 then
          ⟨ofStr "keyword", kw.2, [ofStr "keyword_match_" ++ format2f kw.2],
            ofStr "Strong keyword overlap detected (Jaccard: " ++
              formatPct0 kw.2 ++ ofStr ")"⟩
        else
          if (3/4 : ℚ) ≤ fz.2 ∨ (3/5 : ℚ) ≤ kw.2 then
            let combined := fz.2 * (3/5) + kw.2 * (2/5)
            if (18/25 : ℚ) ≤ combined then
              ⟨ofStr "fuzzy", combined,
                [ofStr "fuzzy_match_" ++ format2f fz.2,
                  ofStr "keyword_match_" ++ format2f kw.2],
                ofStr "Combined fuzzy and keyword match (combined confidence: " ++
                  formatPct0 combined ++ ofStr ")"⟩
            else msmNoMatch
          else msmNoMatch

/-! ### duplicate_detection.detector -/

/-- `detector.DuplicateStatus`: the enum declares exactly these three
members (`POSSIBLE_DUPLICATE` is *not* among them). -/
inductive DuplicateStatus
  | DUPLICATE
  | POTENTIAL_DUPLICATE
  | NO_MATCH
deriving DecidableEq

def statusValue : DuplicateStatus → List Nat
  | .DUPLICATE => ofStr "duplicate"
  | .POTENTIAL_DUPLICATE => ofStr "potential_duplicate"
  | .NO_MATCH => ofStr "no_match"

/-- Python exceptions the embedded code can raise. -/
inductive PyExc
  | attributeError (name : String)
  | valueError (msg : List Nat)
deriving DecidableEq

def pyExcMsg : PyExc → List Nat
  | .attributeError n => ofStr n
  | .valueError m => m

/-- `detector.DetectionSignals` with its defaults. -/
structure DetectionSignals where
  exact_name_match : Bool := false
  core_name_match : Bool := false
  variant_name_match : Bool := false
  exact_acronym_match : Bool := false
  exact_url_match : Bool := false
  semantic_name_similarity : ℚ := 0
  semantic_combined_similarity : ℚ := 0
  same_country : Bool := false
  acronym_similarity : ℚ := 0
  keyword_match_score : ℚ := 0
deriving DecidableEq

/-- An uploaded row after parsing (`record` in the API loop).  Optional
string values that Python would hold as `None` or as a missing key are
`none`; `acronym` and `partner_name` use `[]` for the falsy cases, which
the loop treats identically. -/
structure UploadedRecord where
  idField : Option (List Nat) := none
  partner_name : List Nat := []
  acronym : List Nat := []
  institution_type : List Nat := []
  web_page : Option (List Nat) := none
  country_id : Option (List Nat) := none
deriving DecidableEq

/-- A reference-registry entry (`clarisa_record`). -/
structure ClarisaRecord where
  clarisa_id : Option Int := none
  partner_name : List Nat := []
  acronym : List Nat := []
  web_page : Option (List Nat) := none
  country_id : Option (List Nat) := none
  embedding_vector : Option (List ℚ) := none
deriving DecidableEq

/-- Python `str(value)` for an optional string: `str(None) = "None"`. -/
def pyStrOfOpt : Option (List Nat) → List Nat
  | none => ofStr "None"
  | some s => s

def optOrEmpty : Option (List Nat) → List Nat := fun o => o.getD []

/-- `detector.check_rule_based_signals`: country context, the semantic
threshold 0.70, then the website check. -/
def check_rule_based_signals (u : UploadedRecord) (c : ClarisaRecord)
    (combined_similarity : ℚ) : DetectionSignals × Bool :=
  let countries_match :=
    (pyStrOfOpt u.country_id).map pyLower == (pyStrOfOpt c.country_id).map pyLower
  let signals0 : DetectionSignals := { same_country := countries_match }
  if (7/10 : ℚ) ≤ combined_similarity then
    ({ signals0 with semantic_combined_similarity := combined_similarity }, true)
  else
    let url1 := normalize_url (optOrEmpty u.web_page)
    let url2 := normalize_url (optOrEmpty c.web_page)
    if url1 ≠ [] ∧ url2 ≠ [] ∧ url1 = url2 then
      ({ signals0 with exact_url_match := true }, true)
    else (signals0, false)

/-- The similarity-results dictionary handed to `classify_record`. -/
structure SimilarityResults where
  similarity_score : ℚ := 0
  matched_clarisa_id : Option Int := none
  signals : DetectionSignals := {}
  match_type : List Nat := []
  explanation : List Nat := []
deriving DecidableEq

/-- Python `a or b` on strings (`None`/empty falls through to `b`). -/
def pyOr (a b : List Nat) : List Nat := if a = [] then b else a

/-- `detector.classify_record`.  Tiers 4 and 5 of the source return
`DuplicateStatus.POSSIBLE_DUPLICATE`, which is not a member of the
`DuplicateStatus` enum, so evaluating the return expression raises
`AttributeError`; the embedding returns that exception in `Except`. -/
def classify_record (similarity_results : Option SimilarityResults) :
    Except PyExc (DuplicateStatus × ℚ × List Nat × Option Int) :=
  match similarity_results with
  | none =>
    .ok (DuplicateStatus.NO_MATCH, 0, ofStr "No matching institutions found", none)
  | some r =>
    let s := r.similarity_score
    if r.signals.exact_name_match || r.signals.core_name_match ||
        r.signals.variant_name_match then
      .ok (.DUPLICATE, max s (19/20), pyOr r.explanation (ofStr "Exact name match"),
        r.matched_clarisa_id)
    else if (9/10 : ℚ) ≤ r.signals.acronym_similarity then
      .ok (.DUPLICATE, s,
        ofStr "Acronym match with " ++ formatPct0 s ++ ofStr " confidence",
        r.matched_clarisa_id)
    else if (17/20 : ℚ) ≤ s then
      .ok (.DUPLICATE, s,
        pyOr r.explanation (ofStr "Strong match (" ++ formatPct0 s ++ ofStr ")"),
        r.matched_clarisa_id)
    else if (18/25 : ℚ) ≤ s then
      .error (.attributeError "POSSIBLE_DUPLICATE")
    else if r.signals.exact_url_match && decide ((7/10 : ℚ) < r.signals.acronym_similarity) then
      .error (.attributeError "POSSIBLE_DUPLICATE")
    else
      .ok (.NO_MATCH, 0, ofStr "No matching institutions found", none)

/-! ### api.institutions.upload_and_detect_duplicates -/

/-- The retained best-candidate dictionary of the registry scan.  The
semantic candidate carries no `explanation` key; `[]` models the missing
key, which every consumer reads through `get`/`or`. -/
structure BestMatch where
  clarisa_id : Option Int := none
  similarity : ℚ := 0
  signals : DetectionSignals := {}
  match_type : List Nat := []
  explanation : List Nat := []
deriving DecidableEq

/-- Lines 171–180 of the API loop: signals from an advanced-match result. -/
def signalsOfAdvanced (r : MSMResult) : DetectionSignals :=
  if r.match_type = ofStr "exact" then { exact_name_match := true }
  else if r.match_type = ofStr "acronym" then { acronym_similarity := r.confidence }
  else if r.match_type = ofStr "fuzzy" then { variant_name_match := true }
  else if r.match_type = ofStr "keyword" then { keyword_match_score := r.confidence }
  else {}

/-- Strategy 2 of the scan loop (lines 198–222): the semantic fallback,
entered only when the retained candidate is absent or below 0.85.
`simFn` abstracts `embeddings_service.similarity_score` (cosine
similarity over floats, with its square roots, is kept abstract). -/
def scanStepSemantic (simFn : List ℚ → List ℚ → ℚ) (u : UploadedRecord)
    (upEmb : Option (List ℚ)) (c : ClarisaRecord)
    (bm : Option BestMatch) (bs : ℚ) : Option BestMatch × ℚ :=
  let needSem := match bm with
    | none => true
    | some m => decide (m.similarity < 17/20)
  if needSem then
    let combined_sim := match upEmb, c.embedding_vector with
      | some e1, some e2 => if e1 ≠ [] ∧ e2 ≠ [] then simFn e1 e2 else 0
      | _, _ => 0
    let rs := check_rule_based_signals u c combined_sim
    if rs.2 && decide (bs < combined_sim) then
      (some ⟨c.clarisa_id, combined_sim,
        { rs.1 with semantic_combined_similarity := combined_sim },
        ofStr "semantic", []⟩, combined_sim)
    else (bm, bs)
  else (bm, bs)

/-- The best-match dictionary built from an advanced-match result
(lines 182–188). -/
def advancedCandidate (c : ClarisaRecord) (ar : MSMResult) : BestMatch :=
  ⟨c.clarisa_id, ar.confidence, signalsOfAdvanced ar, ar.match_type, ar.explanation⟩

/-- The registry scan (lines 156–222): symbolic strategy first; a strong
`exact`/`acronym` match with confidence ≥ 0.90 breaks out of the loop;
any other symbolic candidate overwrites the retained best match, and the
scalar `best_similarity` rises to the maximum confidence seen; then the
semantic fallback. -/
def scanLoop (simFn : List ℚ → List ℚ → ℚ) (u : UploadedRecord)
    (upEmb : Option (List ℚ)) :
    List ClarisaRecord → (Option BestMatch × ℚ) → Option BestMatch × ℚ
  | [], st => st
  | c :: rest, (bm, bs) =>
    let ar := multi_strategy_match u.partner_name u.acronym c.partner_name c.acronym
    if ar.match_type ≠ ofStr "no_match" then
      let bm' : Option BestMatch := some (advancedCandidate c ar)
      if (ar.match_type = ofStr "exact" ∨ ar.match_type = ofStr "acronym") ∧
          (9/10 : ℚ) ≤ ar.confidence then
        (bm', bs)
      else
        let bs' := if bs < ar.confidence then ar.confidence else bs
        scanLoop simFn u upEmb rest (scanStepSemantic simFn u upEmb c bm' bs')
    else
      scanLoop simFn u upEmb rest (scanStepSemantic simFn u upEmb c bm bs)

/-- Python `int(str)` on a string: optional surrounding whitespace,
optional sign, then decimal digits; `none` models `ValueError`. -/
def parseIntL (s : List Nat) : Option Int :=
  let t := pyStrip s
  let core := match t with
    | 43 :: rest => some (1, rest)
    | 45 :: rest => some (-1, rest)
    | _ => some (1, t)
  match core with
  | some (sign, digits) =>
    if digits ≠ [] ∧ digits.all (fun c => 48 ≤ c && c ≤ 57) then
      some (sign * (digits.foldl (fun acc c => acc * 10 + (c - 48)) 0 : Nat))
    else none
  | none => none

/-- Lines 138–150 of the API loop: the embedding text for the uploaded
record. -/
def buildEmbeddingText (u : UploadedRecord) (country_name : Option (List Nat)) :
    List Nat :=
  let parts :=
    (if u.acronym ≠ [] then [ofStr "acronym: " ++ u.acronym] else []) ++
    (if u.partner_name ≠ [] then [ofStr "Partner_name: " ++ u.partner_name] else []) ++
    (if u.institution_type ≠ [] then
      [ofStr "institution_type: " ++ u.institution_type] else []) ++
    (if optOrEmpty u.web_page ≠ [] then
      [ofStr "website: " ++ optOrEmpty u.web_page] else []) ++
    (match country_name with
      | some cn => if cn ≠ [] then [ofStr "country: " ++ cn] else []
      | none => [])
  match parts with
  | [] => []
  | p :: ps => ps.foldl (fun acc q => acc ++ ofStr ", " ++ q) p

/-- One row of the per-record result list (lines 252–263). -/
structure ResultRow where
  rid : List Nat
  institution_name : List Nat
  acronym : List Nat
  status : List Nat
  similarity : ℚ
  clarisa_match : Option Int
  reason : List Nat
  web_page : List Nat
  rtype : List Nat
  country : List Nat
deriving DecidableEq

/-- Python `round(x, 4)` (round half to even), on the exact rational. -/
def roundTo4 (q : ℚ) : ℚ := (rhEven (q * 10000) : ℚ) / 10000

/-- The `try` body of the per-record loop (lines 128–263): embedding text,
one embedding generation per record, the registry scan, classification,
and the result row.  `genEmb` abstracts
`embeddings_service.generate_embedding` (it catches its own errors and
cannot raise) and `countriesMap` abstracts `countries_map.get`.  Row-level
exceptions (the `int(country_id)` `ValueError` and the classifier's
`AttributeError`) surface as `.error` with the `f"Row {row_id}: {e}"`
message the `except` branch appends. -/
def processOne (simFn : List ℚ → List ℚ → ℚ)
    (genEmb : List Nat → Option (List ℚ)) (countriesMap : Int → Option (List Nat))
    (registry : List ClarisaRecord) (u : UploadedRecord) :
    Except (List Nat) ResultRow :=
  let row_id := match u.idField with
    | none => ofStr "unknown"
    | some s => s
  let cres : Except PyExc (Option (List Nat)) :=
    match u.country_id with
    | none => .ok none
    | some cid =>
      if cid = [] then .ok none
      else match parseIntL cid with
        | none => .error (.valueError (ofStr "invalid literal for int(): " ++ cid))
        | some z => .ok (countriesMap z)
  match cres with
  | .error e => .error (ofStr "Row " ++ row_id ++ ofStr ": " ++ pyExcMsg e)
  | .ok country_name =>
    let upEmb := genEmb (buildEmbeddingText u country_name)
    let scan := scanLoop simFn u upEmb registry (none, 0)
    let clsInput : Option SimilarityResults :=
      match scan.1 with
      | some m =>
        if 0 < m.similarity then
          some ⟨m.similarity, m.clarisa_id, m.signals, m.match_type, m.explanation⟩
        else none
      | none => none
    match classify_record clsInput with
    | .error e => .error (ofStr "Row " ++ row_id ++ ofStr ": " ++ pyExcMsg e)
    | .ok (st, sim, reason, mid) =>
      .ok ⟨row_id, u.partner_name, u.acronym, statusValue st, roundTo4 sim, mid,
        reason, optOrEmpty u.web_page, u.institution_type, optOrEmpty u.country_id⟩

/-- The per-record loop (lines 124–267): each record contributes a result
row or, when its `try` body raises, an entry in the row-level error list;
processing always continues with the next record. -/
def processRecords (simFn : List ℚ → List ℚ → ℚ)
    (genEmb : List Nat → Option (List ℚ)) (countriesMap : Int → Option (List Nat))
    (registry : List ClarisaRecord) :
    List UploadedRecord → List ResultRow × List (List Nat)
  | [] => ([], [])
  | u :: rest =>
    let tail := processRecords simFn genEmb countriesMap registry rest
    match processOne simFn genEmb countriesMap registry u with
    | .ok r => (r :: tail.1, tail.2)
    | .error e => (tail.1, e :: tail.2)

/-! ### excel_parser row validation and the endpoint -/

/-- One spreadsheet row after the header mapping of
`excel_parser.parse_excel_file` (a cell that is empty or whose column is
absent is `none`). -/
structure RawRecord where
  idField : Option (List Nat) := none
  partner_name : Option (List Nat) := none
  institution_type : Option (List Nat) := none
  country_id : Option (List Nat) := none
  acronym : Option (List Nat) := none
  web_page : Option (List Nat) := none
deriving DecidableEq

def rowEmpty (r : RawRecord) : Bool :=
  r.idField = none ∧ r.partner_name = none ∧ r.institution_type = none ∧
    r.country_id = none ∧ r.acronym = none ∧ r.web_page = none

def fieldFalsy : Option (List Nat) → Bool
  | none => true
  | some v => v = []

/-- The required-field validation of one row (lines 66–71), with the
`f"Row {row_idx}: Missing or empty '{field}'"` messages in column order. -/
def validateRow (idx : Nat) (r : RawRecord) : List (List Nat) :=
  (if fieldFalsy r.idField then
    [ofStr "Row " ++ natToL idx ++ ofStr ": Missing or empty 'id'"] else []) ++
  (if fieldFalsy r.partner_name then
    [ofStr "Row " ++ natToL idx ++ ofStr ": Missing or empty 'partner_name'"] else []) ++
  (if fieldFalsy r.institution_type then
    [ofStr "Row " ++ natToL idx ++ ofStr ": Missing or empty 'institution_type'"] else []) ++
  (if fieldFalsy r.country_id then
    [ofStr "Row " ++ natToL idx ++ ofStr ": Missing or empty 'country_id'"] else [])

def toUploaded (r : RawRecord) : UploadedRecord :=
  { idField := r.idField, partner_name := optOrEmpty r.partner_name,
    acronym := optOrEmpty r.acronym,
    institution_type := optOrEmpty r.institution_type,
    web_page := r.web_page, country_id := r.country_id }

/-- The data-row loop of `parse_excel_file` (lines 56–79): skip empty
rows, collect per-row validation errors, keep only valid records.
Row numbering starts at 2 and counts skipped rows too. -/
def parseRowsAux : Nat → List RawRecord → List UploadedRecord × List (List Nat)
  | _, [] => ([], [])
  | idx, r :: rest =>
    if rowEmpty r then parseRowsAux (idx + 1) rest
    else
      let rowErrs := validateRow idx r
      let tail := parseRowsAux (idx + 1) rest
      if rowErrs = [] then (toUploaded r :: tail.1, tail.2)
      else (tail.1, rowErrs ++ tail.2)

def parse_excel_rows (rows : List RawRecord) :
    List UploadedRecord × List (List Nat) := parseRowsAux 2 rows

/-- `api.institutions.upload_and_detect_duplicates` after file reading:
any parse error aborts the whole upload with HTTP 400 (so does an empty
record list); otherwise every record is processed and the endpoint
returns the result rows together with the row-level error list. -/
def upload_and_detect_duplicates (simFn : List ℚ → List ℚ → ℚ)
    (genEmb : List Nat → Option (List ℚ)) (countriesMap : Int → Option (List Nat))
    (registry : List ClarisaRecord) (rows : List RawRecord) :
    Except Nat (List ResultRow × List (List Nat)) :=
  let parsed := parse_excel_rows rows
  if parsed.2 ≠ [] then .error 400
  else if parsed.1 = [] then .error 400
  else .ok (processRecords simFn genEmb countriesMap registry parsed.1)

/-! ### Inputs and spec-side definitions used by the claim theorems -/

/-- The amended C4 claim's reading of `acronym_match_score`, written from
the amended claim text: (1) explicit parenthesized/bracketed exact
acronym → (true, 0.95); (2) a knowledge-base key is a substring of the
normalized acronym or vice versa and some expansion fuzzy-matches the
normalized name at ratio ≥ 0.8 → (true, 0.92); (3) the name has at least
two words, the normalized acronym at least two characters, and the
acronym generated from the first character of each letter-initial word
equals the normalized acronym → (true, 0.85); (4) otherwise
(false, 0.0); empty name or acronym short-circuits to (false, 0.0). -/
def acronym_match_claimed (institution_name acronym : List Nat) : Bool × ℚ :=
  if institution_name = [] ∨ acronym = [] then (false, 0)
  else
    let nname := normalize_text institution_name
    let nacr := (normalize_acronym acronym).map pyUpper
    if (scanParens nname).any (fun content =>
        nacr.map pyLower == pyStrip (content.map pyLower)) then (true, 95/100)
    else if (get_acronym_expansions nacr).any
        (fun e => (fuzzy_match_score nname e (8/10)).1) then (true, 92/100)
    else if 2 ≤ (wordsOf nname).length ∧ 2 ≤ nacr.length ∧
        (wordsOf nname).filterMap (fun w => match w with
          | [] => none
          | c :: _ => if isAlphaCp c then some (pyUpper c) else none) = nacr then
      (true, 85/100)
    else (false, 0)

/-- C1: a retained best candidate that is semantic-only with cosine
similarity 0.80 (the spec's semantic-only fallback example). -/
def c1SimResults : SimilarityResults :=
  { similarity_score := 4/5, matched_clarisa_id := some 7,
    signals := { semantic_combined_similarity := 4/5, same_country := true },
    match_type := ofStr "semantic", explanation := [] }

/-- C3 witness input: an exact-name match at similarity 0.97. -/
def c3SimResults : SimilarityResults :=
  { similarity_score := 97/100, matched_clarisa_id := some 3,
    signals := { exact_name_match := true },
    match_type := ofStr "exact", explanation := ofStr "Exact institution name match" }

/-- C2 counterexample: one uploaded record and two registry entries whose
fuzzy scores against it are 20/21 ≈ 0.952 and 9/10. -/
def c2Uploaded : UploadedRecord := { partner_name := ofStr "abcdefghij" }

def c2RefA : ClarisaRecord :=
  { clarisa_id := some 1, partner_name := ofStr "abcdefghijk" }

def c2RefB : ClarisaRecord :=
  { clarisa_id := some 2, partner_name := ofStr "abcdefghix" }

/-- C2 witness: an exact-name pair that short-circuits the scan. -/
def c2wUploaded : UploadedRecord := { partner_name := ofStr "acme wheat" }

def c2wRefMatch : ClarisaRecord :=
  { clarisa_id := some 5, partner_name := ofStr "Acme Wheat" }

def c2wRefOther : ClarisaRecord :=
  { clarisa_id := some 6, partner_name := ofStr "other name" }

/-- C9 counterexample rows: a valid row and a row missing
`partner_name`. -/
def c9ValidRow : RawRecord :=
  { idField := some (ofStr "1"), partner_name := some (ofStr "Acme Wheat Institute"),
    institution_type := some (ofStr "NGO"), country_id := some (ofStr "4") }

def c9MalformedRow : RawRecord :=
  { idField := some (ofStr "2"), institution_type := some (ofStr "NGO"),
    country_id := some (ofStr "4") }

/-! ### Character-level lemmas -/

theorem pyLower_idem (c : Nat) : pyLower (pyLower c) = pyLower c := by
  unfold pyLower
  split_ifs <;> omega

theorem nfdDecomp_of_lt (c : Nat) (h : c < 224) : nfdDecomp c = [c] := by
  unfold nfdDecomp
  rw [if_neg (by omega)]

theorem nfdDecomp_of_ge (c : Nat) (h : 256 ≤ c) : nfdDecomp c = [c] := by
  unfold nfdDecomp
  rw [if_neg (by omega)]

set_option maxRecDepth 10000 in
theorem decomp_cases_lt256 : ∀ m, m < 256 → ∀ x ∈ nfdDecomp m,
    (x = m ∧ nfdDecomp x = [x]) ∨ (97 ≤ x ∧ x ≤ 122) ∨ isMn x = true := by
  decide

theorem pyLower_fixed_ascii_lower {x : Nat} (h1 : 97 ≤ x) (h2 : x ≤ 122) :
    pyLower x = x := by
  unfold pyLower
  split_ifs <;> omega

/-- A non-combining character produced by lowering-then-decomposing is a
fixed point of both lowering and decomposition. -/
theorem decompLower_good (c x : Nat) (hx : x ∈ nfdDecomp (pyLower c))
    (hmn : isMn x = false) : pyLower x = x ∧ nfdDecomp x = [x] := by
  have hmfix : pyLower (pyLower c) = pyLower c := pyLower_idem c
  generalize hm : pyLower c = m at hx hmfix
  rcases lt_or_le m 256 with hlt256 | hge256
  · rcases decomp_cases_lt256 m hlt256 x hx with ⟨rfl, hself⟩ | ⟨h1, h2⟩ | hmn'
    · exact ⟨hmfix, hself⟩
    · exact ⟨pyLower_fixed_ascii_lower h1 h2, nfdDecomp_of_lt x (by omega)⟩
    · rw [hmn'] at hmn; cases hmn
  · rw [nfdDecomp_of_ge m hge256] at hx
    simp only [List.mem_singleton] at hx
    subst hx
    exact ⟨hmfix, nfdDecomp_of_ge _ hge256⟩

/-! ### Whitespace-collapse lemmas -/

theorem collapseAux_false_cons_space {c : Nat} {l : List Nat}
    (hc : isPySpace c = true) :
    collapseAux false (c :: l) = 32 :: collapseAux true l := by
  simp [collapseAux, hc]

theorem collapseAux_false_cons_nonspace {c : Nat} {l : List Nat}
    (hc : isPySpace c = false) :
    collapseAux false (c :: l) = c :: collapseAux false l := by
  simp [collapseAux, hc]

theorem collapseAux_true_cons_space {c : Nat} {l : List Nat}
    (hc : isPySpace c = true) :
    collapseAux true (c :: l) = collapseAux true l := by
  simp [collapseAux, hc]

theorem collapseAux_true_cons_nonspace {c : Nat} {l : List Nat}
    (hc : isPySpace c = false) :
    collapseAux true (c :: l) = c :: collapseAux false l := by
  simp [collapseAux, hc]

theorem mem_collapseAux {x : Nat} :
    ∀ (l : List Nat) (b : Bool), x ∈ collapseAux b l → x = 32 ∨ x ∈ l := by
  intro l
  induction l with
  | nil => intro b h; cases b <;> simp [collapseAux] at h
  | cons c rest ih =>
    intro b h
    cases b <;> simp only [collapseAux] at h <;> split_ifs at h with hc
    · rcases List.mem_cons.mp h with rfl | h'
      · exact Or.inl rfl
      · rcases ih true h' with h32 | hmem
        · exact Or.inl h32
        · exact Or.inr (List.mem_cons_of_mem _ hmem)
    · rcases List.mem_cons.mp h with rfl | h'
      · exact Or.inr (List.mem_cons_self _ _)
      · rcases ih false h' with h32 | hmem
        · exact Or.inl h32
        · exact Or.inr (List.mem_cons_of_mem _ hmem)
    · rcases ih true h with h32 | hmem
      · exact Or.inl h32
      · exact Or.inr (List.mem_cons_of_mem _ hmem)
    · rcases List.mem_cons.mp h with rfl | h'
      · exact Or.inr (List.mem_cons_self _ _)
      · rcases ih false h' with h32 | hmem
        · exact Or.inl h32
        · exact Or.inr (List.mem_cons_of_mem _ hmem)

theorem collapseAux_spaces32 {x : Nat} :
    ∀ (l : List Nat) (b : Bool), x ∈ collapseAux b l → isPySpace x = true → x = 32 := by
  intro l
  induction l with
  | nil => intro b h _; cases b <;> simp [collapseAux] at h
  | cons c rest ih =>
    intro b h hsp
    cases b <;> simp only [collapseAux] at h <;> split_ifs at h with hc
    · rcases List.mem_cons.mp h with rfl | h'
      · rfl
      · exact ih true h' hsp
    · rcases List.mem_cons.mp h with rfl | h'
      · exact absurd hsp (by simp [hc])
      · exact ih false h' hsp
    · exact ih true h hsp
    · rcases List.mem_cons.mp h with rfl | h'
      · exact absurd hsp (by simp [hc])
      · exact ih false h' hsp

theorem collapseAux_firstNotSpace :
    ∀ (l : List Nat), firstNotSpace (collapseAux true l) = true := by
  intro l
  induction l with
  | nil => rfl
  | cons c rest ih =>
    simp only [collapseAux]
    split_ifs with hc
    · exact ih
    · simp [firstNotSpace, hc]

theorem collapseAux_noTwoSpaces :
    ∀ (l : List Nat) (b : Bool), noTwoSpaces (collapseAux b l) = true := by
  intro l
  induction l with
  | nil => intro b; cases b <;> rfl
  | cons c rest ih =>
    intro b
    cases b
    case false =>
      by_cases hc : isPySpace c = true
      · rw [collapseAux_false_cons_space hc]
        cases hX : collapseAux true rest with
        | nil => rfl
        | cons d X =>
          have hd : isPySpace d = false := by
            have := collapseAux_firstNotSpace rest
            rw [hX] at this
            simpa [firstNotSpace] using this
          have := ih true
          rw [hX] at this
          simp [noTwoSpaces, hd, this]
      · rw [collapseAux_false_cons_nonspace (by simpa using hc)]
        cases hX : collapseAux false rest with
        | nil => rfl
        | cons d X =>
          have := ih false
          rw [hX] at this
          simp only [noTwoSpaces, Bool.and_eq_true]
          refine ⟨by simp [hc], this⟩
    case true =>
      by_cases hc : isPySpace c = true
      · rw [collapseAux_true_cons_space hc]
        exact ih true
      · rw [collapseAux_true_cons_nonspace (by simpa using hc)]
        cases hX : collapseAux false rest with
        | nil => rfl
        | cons d X =>
          have := ih false
          rw [hX] at this
          simp only [noTwoSpaces, Bool.and_eq_true]
          refine ⟨by simp [hc], this⟩

theorem collapseAux_fixed :
    ∀ (l : List Nat), (∀ x ∈ l, isPySpace x = true → x = 32) →
      noTwoSpaces l = true → collapseAux false l = l := by
  intro l
  induction l with
  | nil => intro _ _; rfl
  | cons c rest ih =>
    intro h32 hnts
    have hrest32 : ∀ x ∈ rest, isPySpace x = true → x = 32 :=
      fun x hx hxsp => h32 x (List.mem_cons_of_mem _ hx) hxsp
    have hrestnts : noTwoSpaces rest = true := by
      cases rest with
      | nil => rfl
      | cons d rest' =>
        simp only [noTwoSpaces, Bool.and_eq_true] at hnts
        exact hnts.2
    by_cases hc : isPySpace c = true
    · have hc32 : c = 32 := h32 c (List.mem_cons_self _ _) hc
      rw [collapseAux_false_cons_space hc]
      cases rest with
      | nil => simp [collapseAux, hc32]
      | cons d rest' =>
        have hd : isPySpace d = false := by
          simp only [noTwoSpaces, Bool.and_eq_true, Bool.not_eq_true'] at hnts
          rcases hnts with ⟨h1, _⟩
          simpa [hc] using h1
        have hrest : collapseAux false (d :: rest') = d :: rest' :=
          ih hrest32 hrestnts
        rw [collapseAux_false_cons_nonspace hd] at hrest
        have hrest' : collapseAux false rest' = rest' := (List.cons.inj hrest).2
        rw [collapseAux_true_cons_nonspace hd, hrest', hc32]
    · rw [collapseAux_false_cons_nonspace (by simpa using hc)]
      rw [ih hrest32 hrestnts]

/-! ### Fixed-point lemmas for the pipeline stages -/

theorem map_fixed {f : Nat → Nat} :
    ∀ (l : List Nat), (∀ x ∈ l, f x = x) → l.map f = l := by
  intro l
  induction l with
  | nil => intro _; rfl
  | cons c rest ih =>
    intro h
    simp only [List.map_cons]
    rw [h c (List.mem_cons_self _ _), ih (fun x hx => h x (List.mem_cons_of_mem _ hx))]

theorem flatten_decomp_fixed :
    ∀ (l : List Nat), (∀ x ∈ l, nfdDecomp x = [x]) →
      (l.map nfdDecomp).flatten = l := by
  intro l
  induction l with
  | nil => intro _; rfl
  | cons c rest ih =>
    intro h
    simp only [List.map_cons, List.flatten_cons]
    rw [h c (List.mem_cons_self _ _), ih (fun x hx => h x (List.mem_cons_of_mem _ hx))]
    rfl

theorem mem_pyStrip {x : Nat} {l : List Nat} (h : x ∈ pyStrip l) : x ∈ l := by
  unfold pyStrip at h
  rw [List.mem_reverse] at h
  have h1 := (List.dropWhile_sublist (l := (l.dropWhile isPySpace).reverse)
    (p := isPySpace)).mem h
  rw [List.mem_reverse] at h1
  exact (List.dropWhile_sublist (l := l) (p := isPySpace)).mem h1

/-- Every character of a `normalize_text` output is a fixed point of
lowering and decomposition and is not a combining mark; whitespace
characters are exactly the plain space. -/
theorem normalize_text_chars (s : List Nat) :
    ∀ x ∈ normalize_text s,
      pyLower x = x ∧ nfdDecomp x = [x] ∧ isMn x = false ∧
        (isPySpace x = true → x = 32) := by
  intro x hx
  unfold normalize_text collapseWs at hx
  have h32 : isPySpace x = true → x = 32 := collapseAux_spaces32 _ false hx
  rcases mem_collapseAux _ false hx with rfl | hmem
  · exact ⟨by decide, by decide, by decide, fun _ => rfl⟩
  · rw [List.mem_filter] at hmem
    obtain ⟨hfl, hmn'⟩ := hmem
    have hmn : isMn x = false := by simpa using hmn'
    rw [List.mem_flatten] at hfl
    obtain ⟨dl, hdl, hxdl⟩ := hfl
    rw [List.mem_map] at hdl
    obtain ⟨m, hm, rfl⟩ := hdl
    have hm' : m ∈ (s.map pyLower) := mem_pyStrip hm
    rw [List.mem_map] at hm'
    obtain ⟨c, _, rfl⟩ := hm'
    obtain ⟨hA, hB⟩ := decompLower_good c x hxdl hmn
    exact ⟨hA, hB, hmn, h32⟩

theorem normalize_text_noTwoSpaces (s : List Nat) :
    noTwoSpaces (normalize_text s) = true :=
  collapseAux_noTwoSpaces _ false

theorem keepAcr_pyLower_fixed {c : Nat} (h : keepAcr c = true) :
    pyLower c = c := by
  simp only [keepAcr, Bool.or_eq_true, Bool.and_eq_true, decide_eq_true_eq] at h
  unfold pyLower
  split_ifs <;> omega

/-! ### Claim theorems for the Normalizer -/

/-- C6, counterexample: `normalize_text` is not idempotent.  On the string
U+0301 SPACE `a`, removing the leading combining mark exposes a leading
space that only a second pass strips. -/
theorem claim_C6_counterexample :
    normalize_text (normalize_text [769, 32, 97]) ≠ normalize_text [769, 32, 97] := by
  decide

/-- C6 (amended): `normalize_text` lowercases, trims, strips diacritics via
NFD decomposition and collapses internal whitespace; it maps `"Café"` to
`"cafe"` and empty input to the empty string, and it is idempotent on
every string whose normalized form carries no leading or trailing
whitespace (stripping combining marks can expose edge whitespace that only
a second pass would trim). -/
theorem claim_C6_normalize_text_idempotent (s : List Nat)
    (h : pyStrip (normalize_text s) = normalize_text s) :
    normalize_text (normalize_text s) = normalize_text s ∧
      normalize_text (ofStr "Café") = ofStr "cafe" ∧
      normalize_text [] = [] := by
  refine ⟨?_, by decide, rfl⟩
  have hchars := normalize_text_chars s
  have hmap : (normalize_text s).map pyLower = normalize_text s :=
    map_fixed _ (fun x hx => (hchars x hx).1)
  have hflat : ((normalize_text s).map nfdDecomp).flatten = normalize_text s :=
    flatten_decomp_fixed _ (fun x hx => (hchars x hx).2.1)
  have hfilter : (normalize_text s).filter (fun c => !(isMn c)) = normalize_text s :=
    List.filter_eq_self.mpr (fun x hx => by simp [(hchars x hx).2.2.1])
  conv_lhs => rw [normalize_text, hmap, h, hflat, hfilter]
  exact collapseAux_fixed _ (fun x hx => (hchars x hx).2.2.2)
    (normalize_text_noTwoSpaces s)

/-- Witness for C6: the amended idempotence applied to the concrete string
`"Café"`, whose normalization has no edge whitespace. -/
theorem claim_C6_witness :
    normalize_text (normalize_text (ofStr "Café")) = normalize_text (ofStr "Café") :=
  (claim_C6_normalize_text_idempotent (ofStr "Café") (by decide)).1

/-- C7, counterexample: `normalize_acronym` does not uppercase and does not
remove only whitespace/periods/hyphens: on `"AB"` it returns `"ab"`, not
`"AB"` as the claim's reading (`normalize_acronym_claimed`) demands. -/
theorem claim_C7_counterexample :
    normalize_acronym (ofStr "AB") = ofStr "ab" ∧
      normalize_acronym (ofStr "AB") ≠ normalize_acronym_claimed (ofStr "AB") := by
  constructor
  · decide
  · decide

/-- C7 (amended): `normalize_acronym` returns the lowercased form of its
input with every character other than the ASCII lowercase letters and
digits removed (so whitespace, periods and hyphens are removed, but so is
every other special character, and the result is lowercase, not
uppercase), and it is idempotent. -/
theorem claim_C7_normalize_acronym :
    (∀ s, normalize_acronym (normalize_acronym s) = normalize_acronym s) ∧
      normalize_acronym (ofStr "A.B-C x_1") = ofStr "abcx1" ∧
      normalize_acronym [] = [] := by
  refine ⟨?_, by decide, rfl⟩
  intro s
  unfold normalize_acronym
  have hchars : ∀ x ∈ (s.map pyLower).filter keepAcr, keepAcr x = true :=
    fun x hx => (List.mem_filter.mp hx).2
  rw [map_fixed _ (fun x hx => keepAcr_pyLower_fixed (hchars x hx))]
  exact List.filter_eq_self.mpr hchars

/-- C8, counterexample: `normalize_url` does not strip the path, query or
fragment — the claim's "https scheme and the lowercased host only" is
false: `"http://example.org/path"` keeps its path. -/
theorem claim_C8_counterexample :
    normalize_url (ofStr "http://example.org/path") = ofStr "https://example.org/path" ∧
      ofStr "https://example.org/path" ≠ ofStr "https://example.org" := by
  constructor
  · decide
  · decide

/-- C8 (amended): `normalize_url` strips and lowercases, removes trailing
slashes, forces the `https` scheme (added if absent, `http` rewritten) and
strips a literal `www.` immediately after that scheme; numbered variants
such as `www2.` and the path/query/fragment are preserved.  In particular
`normalize_url("http://WWW.Example.org/") == normalize_url("https://example.org")`
still holds. -/
theorem claim_C8_normalize_url :
    normalize_url (ofStr "http://WWW.Example.org/") = ofStr "https://example.org" ∧
      normalize_url (ofStr "https://example.org") = ofStr "https://example.org" ∧
      normalize_url (ofStr "example.org") = ofStr "https://example.org" ∧
      normalize_url (ofStr "https://www2.example.org") = ofStr "https://www2.example.org" ∧
      normalize_url (ofStr "HTTP://Example.ORG///") = ofStr "https://example.org" ∧
      normalize_url (ofStr "https://example.org/path?q=1") = ofStr "https://example.org/path?q=1" := by
  refine ⟨?_, ?_, ?_, ?_, ?_, ?_⟩ <;> decide

/-! ### SequenceMatcher bounds

The matched block returned by `find_longest_match` always lies inside the
window, so the total matched size is at most the length of either window
and the ratio is in `[0, 1]`. -/

/-- The best block lies inside the window `[alo, ahi) × [blo, bhi)`. -/
def FlmValid (alo ahi blo bhi : Nat) (st : FlmState) : Prop :=
  alo ≤ st.besti ∧ st.besti + st.bestsize ≤ ahi ∧
    blo ≤ st.bestj ∧ st.bestj + st.bestsize ≤ bhi

theorem rowJs_bounds {b : List Nat} {x blo bhi j : Nat}
    (h : j ∈ rowJs b x blo bhi) : blo ≤ j ∧ j < bhi := by
  unfold rowJs at h
  rw [List.mem_filter] at h
  obtain ⟨hr, hp⟩ := h
  rw [List.mem_range] at hr
  simp only [Bool.and_eq_true, decide_eq_true_eq] at hp
  exact ⟨hp.1, hr⟩

theorem rowFold_inv {alo ahi blo bhi i rowsDone : Nat} {j2 : Nat → Nat}
    (hj2 : ∀ j, j2 j ≤ rowsDone ∧ (j2 j ≠ 0 → j2 j + blo ≤ j + 1))
    (hrow : rowsDone = i - alo) (hilo : alo ≤ i) (hi : i < ahi) :
    ∀ (js : List Nat) (acc : Nat → Nat) (best : FlmState),
      (∀ j ∈ js, blo ≤ j ∧ j < bhi) →
      (∀ j, acc j ≤ rowsDone + 1 ∧ (acc j ≠ 0 → acc j + blo ≤ j + 1)) →
      FlmValid alo ahi blo bhi best →
      (∀ j, (rowFold i j2 js acc best).1 j ≤ rowsDone + 1 ∧
        ((rowFold i j2 js acc best).1 j ≠ 0 →
          (rowFold i j2 js acc best).1 j + blo ≤ j + 1)) ∧
      FlmValid alo ahi blo bhi (rowFold i j2 js acc best).2 := by
  intro js
  induction js with
  | nil => intro acc best _ hacc hbest; exact ⟨hacc, hbest⟩
  | cons j js ih =>
    intro acc best hjs hacc hbest
    have hjb : blo ≤ j ∧ j < bhi := hjs j (List.mem_cons_self _ _)
    have hk1 : (if j = 0 then 0 else j2 (j - 1)) + 1 ≤ rowsDone + 1 := by
      split_ifs with h0
      · omega
      · have := (hj2 (j - 1)).1; omega
    have hk2 : (if j = 0 then 0 else j2 (j - 1)) + 1 + blo ≤ j + 1 := by
      split_ifs with h0
      · omega
      · rcases Nat.eq_zero_or_pos (j2 (j - 1)) with hz | hp
        · omega
        · have := (hj2 (j - 1)).2 (by omega); omega
    rw [rowFold]
    apply ih
    · intro j' hj'; exact hjs j' (List.mem_cons_of_mem _ hj')
    · intro j'
      by_cases hjj : j' = j
      · subst hjj; simp only [if_pos rfl]; exact ⟨hk1, fun _ => hk2⟩
      · simp only [if_neg hjj]; exact hacc j'
    · set k := (if j = 0 then 0 else j2 (j - 1)) + 1 with hkdef
      by_cases hlt : best.bestsize < k
      · simp only [if_pos hlt]
        unfold FlmValid
        dsimp only
        omega
      · simpa only [if_neg hlt] using hbest

theorem flmRows_inv (a b : List Nat) (alo blo bhi ahi : Nat) :
    ∀ (rows i : Nat) (j2 : Nat → Nat) (best : FlmState),
      i + rows = ahi → alo ≤ i →
      (∀ j, j2 j ≤ i - alo ∧ (j2 j ≠ 0 → j2 j + blo ≤ j + 1)) →
      FlmValid alo ahi blo bhi best →
      FlmValid alo ahi blo bhi (flmRows a b blo bhi i rows j2 best) := by
  intro rows
  induction rows with
  | zero => intro i j2 best _ _ _ hbest; exact hbest
  | succ rows ih =>
    intro i j2 best hsum hilo hj2 hbest
    rw [flmRows]
    have hi : i < ahi := by omega
    have hjs : ∀ j ∈ (match a.get? i with
        | none => []
        | some x => if isPopular b x then [] else rowJs b x blo bhi),
        blo ≤ j ∧ j < bhi := by
      intro j hj
      rcases hget : a.get? i with _ | x
      · rw [hget] at hj; cases hj
      · rw [hget] at hj
        dsimp only at hj
        split_ifs at hj with hpop
        · cases hj
        · exact rowJs_bounds hj
    have hstep := @rowFold_inv alo ahi blo bhi i (i - alo) j2
      hj2 rfl hilo hi _ (fun _ => 0) best hjs
      (fun j => ⟨Nat.zero_le _, fun h => absurd rfl h⟩) hbest
    refine ih (i + 1) _ _ (by omega) (by omega) ?_ hstep.2
    intro j
    have := hstep.1 j
    omega

theorem extLeft_valid (a b : List Nat) (alo blo ahi bhi : Nat) :
    ∀ (fuel : Nat) (st : FlmState), FlmValid alo ahi blo bhi st →
      FlmValid alo ahi blo bhi (extLeft a b alo blo fuel st) := by
  intro fuel
  induction fuel with
  | zero => intro st h; exact h
  | succ fuel ih =>
    intro st h
    rw [extLeft]
    split_ifs with hc
    · apply ih
      obtain ⟨h1, h2, h3, h4⟩ := h
      obtain ⟨hc1, hc2, -, -⟩ := hc
      unfold FlmValid
      dsimp only
      omega
    · exact h

theorem extRight_valid (a b : List Nat) (ahi bhi alo blo : Nat) :
    ∀ (fuel : Nat) (st : FlmState), FlmValid alo ahi blo bhi st →
      FlmValid alo ahi blo bhi (extRight a b ahi bhi fuel st) := by
  intro fuel
  induction fuel with
  | zero => intro st h; exact h
  | succ fuel ih =>
    intro st h
    rw [extRight]
    split_ifs with hc
    · apply ih
      obtain ⟨h1, h2, h3, h4⟩ := h
      obtain ⟨hc1, hc2, -⟩ := hc
      unfold FlmValid
      dsimp only
      omega
    · exact h

theorem findLongestMatch_valid (a b : List Nat) (alo ahi blo bhi : Nat)
    (h1 : alo ≤ ahi) (h2 : blo ≤ bhi) :
    FlmValid alo ahi blo bhi (findLongestMatch a b alo ahi blo bhi) := by
  unfold findLongestMatch
  apply extRight_valid
  apply extLeft_valid
  apply flmRows_inv
  · omega
  · exact Nat.le_refl alo
  · intro j; exact ⟨Nat.zero_le _, fun h => absurd rfl h⟩
  · exact ⟨Nat.le_refl alo, by simpa using h1, Nat.le_refl blo, by simpa using h2⟩

theorem matchTotalAux_le (a b : List Nat) :
    ∀ (fuel alo ahi blo bhi : Nat), alo ≤ ahi → blo ≤ bhi →
      matchTotalAux a b fuel alo ahi blo bhi ≤ (ahi - alo) ∧
      matchTotalAux a b fuel alo ahi blo bhi ≤ (bhi - blo) := by
  intro fuel
  induction fuel with
  | zero => intro alo ahi blo bhi _ _; exact ⟨Nat.zero_le _, Nat.zero_le _⟩
  | succ fuel ih =>
    intro alo ahi blo bhi h1 h2
    rw [matchTotalAux]
    obtain ⟨v1, v2, v3, v4⟩ := findLongestMatch_valid a b alo ahi blo bhi h1 h2
    set st := findLongestMatch a b alo ahi blo bhi
    split_ifs with hz
    · exact ⟨Nat.zero_le _, Nat.zero_le _⟩
    · have hL := ih alo st.besti blo st.bestj (by omega) (by omega)
      have hR := ih (st.besti + st.bestsize) ahi (st.bestj + st.bestsize) bhi
        (by omega) (by omega)
      constructor <;> omega

theorem matchTotal_le (a b : List Nat) :
    matchTotal a b ≤ a.length ∧ matchTotal a b ≤ b.length := by
  have := matchTotalAux_le a b (a.length + b.length + 1) 0 a.length 0 b.length
    (Nat.zero_le _) (Nat.zero_le _)
  unfold matchTotal
  omega

theorem smRatio_nonneg (a b : List Nat) : 0 ≤ smRatio a b := by
  unfold smRatio
  split_ifs with h
  · norm_num
  · apply div_nonneg
    · positivity
    · positivity

theorem smRatio_le_one (a b : List Nat) : smRatio a b ≤ 1 := by
  unfold smRatio
  split_ifs with h
  · exact le_refl 1
  · have hm := matchTotal_le a b
    have hpos : (0 : ℚ) < (a.length : ℚ) + (b.length : ℚ) := by
      have hp : 0 < a.length + b.length := Nat.pos_of_ne_zero h
      exact_mod_cast hp
    rw [div_le_one hpos]
    have hle : 2 * matchTotal a b ≤ a.length + b.length := by omega
    calc (2 * (matchTotal a b : ℚ)) = ((2 * matchTotal a b : Nat) : ℚ) := by
          push_cast; ring
      _ ≤ ((a.length + b.length : Nat) : ℚ) := by exact_mod_cast hle
      _ = (a.length : ℚ) + (b.length : ℚ) := by push_cast; ring

theorem fuzzy_score_bounds (s1 s2 : List Nat) (th : ℚ) :
    0 ≤ (fuzzy_match_score s1 s2 th).2 ∧ (fuzzy_match_score s1 s2 th).2 ≤ 1 := by
  unfold fuzzy_match_score
  split_ifs with h
  · exact ⟨le_refl 0, by norm_num⟩
  · exact ⟨smRatio_nonneg _ _, smRatio_le_one _ _⟩

/-- `acronym_match_score` only ever returns one of four values. -/
theorem acronym_match_score_cases (n a : List Nat) :
    acronym_match_score n a = (false, 0) ∨
      acronym_match_score n a = (true, 95/100) ∨
      acronym_match_score n a = (true, 92/100) ∨
      acronym_match_score n a = (true, 85/100) := by
  simp only [acronym_match_score]
  split_ifs
  · exact Or.inl rfl
  · exact Or.inr (Or.inl rfl)
  · exact Or.inr (Or.inr (Or.inl rfl))
  · exact Or.inr (Or.inr (Or.inr rfl))
  · exact Or.inl rfl
  · exact Or.inl rfl

/-- `keyword_overlap_score` scores are Jaccard indices, hence in `[0,1]`. -/
theorem keyword_overlap_score_bounds (n1 n2 : List Nat) (m : Nat) :
    0 ≤ (keyword_overlap_score n1 n2 m).2 ∧ (keyword_overlap_score n1 n2 m).2 ≤ 1 := by
  simp only [keyword_overlap_score]
  split_ifs with h1 h2 h3
  · exact ⟨le_refl 0, by norm_num⟩
  · exact ⟨le_refl 0, by norm_num⟩
  · constructor
    · positivity
    · have hsub : ((extract_meaningful_keywords n1 ∩ extract_meaningful_keywords n2).card : ℚ) ≤
          ((extract_meaningful_keywords n1 ∪ extract_meaningful_keywords n2).card : ℚ) := by
        exact_mod_cast Finset.card_le_card Finset.inter_subset_union
      have hpos : (0 : ℚ) <
          ((extract_meaningful_keywords n1 ∪ extract_meaningful_keywords n2).card : ℚ) := by
        rcases not_or.mp h2 with ⟨hne1, -⟩
        have hn : (extract_meaningful_keywords n1).Nonempty :=
          Finset.nonempty_iff_ne_empty.mpr hne1
        obtain ⟨x, hx⟩ := hn
        have hc : 0 < (extract_meaningful_keywords n1 ∪ extract_meaningful_keywords n2).card :=
          Finset.card_pos.mpr ⟨x, Finset.mem_union_left _ hx⟩
        exact_mod_cast hc
      rw [div_le_one hpos]
      exact hsub
  · exact ⟨le_refl 0, by norm_num⟩

/-- A `some` result of the acronym branch is an acronym match with
confidence in `[0.85, 1]`. -/
theorem msmAcronymBranch_some {un ua cn ca : List Nat} {r : MSMResult}
    (h : msmAcronymBranch un ua cn ca = some r) :
    r.match_type = ofStr "acronym" ∧ (17/20 : ℚ) ≤ r.confidence ∧
      r.confidence ≤ 1 := by
  have hfz := fuzzy_score_bounds un cn (7/10)
  simp only [msmAcronymBranch] at h
  split_ifs at h with h1 h2 h3 h4 h5
  all_goals injection h with hX
  all_goals subst hX
  · refine ⟨rfl, ?_, ?_⟩
    · exact le_trans (by norm_num) (le_max_left _ _)
    · exact max_le (by norm_num) hfz.2
  · exact ⟨rfl, by norm_num, by norm_num⟩
  · rcases acronym_match_score_cases cn ua with hc | hc | hc | hc
    · rw [hc] at h4; exact absurd h4 (by norm_num)
    all_goals exact ⟨rfl, by rw [hc]; norm_num, by rw [hc]; norm_num⟩
  · rcases acronym_match_score_cases un ca with hc | hc | hc | hc
    · rw [hc] at h5; exact absurd h5 (by norm_num)
    all_goals exact ⟨rfl, by rw [hc]; norm_num, by rw [hc]; norm_num⟩

/-- C10: `multi_strategy_match` returns `no_match` exactly when the
confidence is zero, and every match carries confidence in `[0.70, 1]`
(so no candidate has confidence strictly between 0 and 0.70). -/
theorem claim_C10_multi_strategy_match_confidence (un ua cn ca : List Nat) :
    ((multi_strategy_match un ua cn ca).match_type = ofStr "no_match" ↔
      (multi_strategy_match un ua cn ca).confidence = 0) ∧
    ((multi_strategy_match un ua cn ca).match_type ≠ ofStr "no_match" →
      (7/10 : ℚ) ≤ (multi_strategy_match un ua cn ca).confidence ∧
        (multi_strategy_match un ua cn ca).confidence ≤ 1) := by
  have hfz := fuzzy_score_bounds un cn (3/4)
  have hkw := keyword_overlap_score_bounds un cn 2
  rcases hbr : msmAcronymBranch un ua cn ca with _ | r
  · simp only [multi_strategy_match, hbr]
    split_ifs with h1 t1 t2 t3 t4
    · exact ⟨⟨fun h => absurd h (by decide), fun h => absurd h (by norm_num)⟩,
        fun _ => ⟨by norm_num, by norm_num⟩⟩
    · obtain ⟨-, t1b⟩ := t1
      dsimp only
      exact ⟨⟨fun h => absurd h (by decide), fun h => absurd t1b (by rw [h]; norm_num)⟩,
        fun _ => ⟨by linarith, hfz.2⟩⟩
    · obtain ⟨-, t2b⟩ := t2
      dsimp only
      exact ⟨⟨fun h => absurd h (by decide), fun h => absurd t2b (by rw [h]; norm_num)⟩,
        fun _ => ⟨by linarith, hkw.2⟩⟩
    · dsimp only
      refine ⟨⟨fun h => absurd h (by decide), fun h => ?_⟩,
        fun _ => ⟨by linarith, by linarith [hfz.2, hkw.2]⟩⟩
      rw [h] at t4
      exact absurd t4 (by norm_num)
    · exact ⟨⟨fun _ => rfl, fun _ => rfl⟩, fun h => absurd rfl h⟩
    · exact ⟨⟨fun _ => rfl, fun _ => rfl⟩, fun h => absurd rfl h⟩
  · obtain ⟨hty, hlo, hhi⟩ := msmAcronymBranch_some hbr
    simp only [multi_strategy_match, hbr]
    split_ifs with h1
    · exact ⟨⟨fun h => absurd h (by decide), fun h => absurd h (by norm_num)⟩,
        fun _ => ⟨by norm_num, by norm_num⟩⟩
    · rw [hty]
      refine ⟨⟨fun h => absurd h (by decide), fun h => ?_⟩, fun _ => ⟨by linarith, hhi⟩⟩
      rw [h] at hlo; norm_num at hlo

/-! ### Claim theorems for the matcher and detector -/

theorem pyOr_ne_nil (a b : List Nat) (hb : b ≠ []) : pyOr a b ≠ [] := by
  unfold pyOr
  split_ifs with h
  · exact hb
  · exact h

theorem append_ne_nil_left {a : List Nat} (b : List Nat) (ha : a ≠ []) :
    a ++ b ≠ [] := by
  cases a with
  | nil => exact absurd rfl ha
  | cons x xs => simp

set_option maxRecDepth 100000 in
set_option maxHeartbeats 4000000 in
/-- C4, counterexample: `"aofao"` is not a knowledge-base key, appears in
no parenthesized marker of the name, and fails the first-letter check,
yet `acronym_match_score` approves it at 0.92, because
`get_acronym_expansions` matches keys by substring containment
(`"fao"` is a substring of `"aofao"`), not key equality as the claim
states. -/
theorem claim_C4_counterexample :
    acronym_match_score (ofStr "Food and Agriculture Organization") (ofStr "aofao") =
        (true, 92/100) ∧
      (ACRONYM_DATABASE.map Prod.fst).contains
        ((normalize_acronym (ofStr "aofao")).map pyLower) = false ∧
      scanParens (normalize_text (ofStr "Food and Agriculture Organization")) = [] ∧
      (wordsOf (normalize_text (ofStr "Food and Agriculture Organization"))).filterMap
          (fun w => match w with
            | [] => none
            | c :: _ => if isAlphaCp c then some (pyUpper c) else none) ≠
        (normalize_acronym (ofStr "aofao")).map pyUpper := by
  refine ⟨?_, ?_, ?_, ?_⟩
  · with_unfolding_all decide
  · decide
  · decide
  · decide

/-- C4 (amended): `acronym_match_score` evaluates the strict priority
order with first hit winning: (1) normalized acronym equal to a
parenthesized/bracketed content of the normalized name → (True, 0.95);
(2) a knowledge-base key is a substring of the normalized acronym or vice
versa and some expansion fuzzy-matches the name at ratio ≥ 0.8 →
(True, 0.92); (3) the name has ≥ 2 words, the normalized acronym has
≥ 2 characters, and the first-letter acronym (first character of each
word whose first character is a letter) equals the normalized acronym →
(True, 0.85); (4) otherwise (False, 0.0) — in particular "TIL" against
"Madagascar Gas Authority" returns (False, 0.0). -/
theorem claim_C4_acronym_match_score :
    (∀ n a, acronym_match_score n a = acronym_match_claimed n a) ∧
      acronym_match_score (ofStr "Madagascar Gas Authority") (ofStr "TIL") = (false, 0) := by
  constructor
  · intro n a
    simp only [acronym_match_score, acronym_match_claimed]
    split_ifs <;> first | rfl | tauto
  · with_unfolding_all decide

/-- C5: `keyword_overlap_score` tokenizes the normalized names, removes
the stop/generic-word set from both, and returns
`(true, |I|/|U|)` exactly when the meaningful-keyword intersection `I`
has at least `min_overlap` elements (for any positive `min_overlap`),
else `(false, 0)`. -/
theorem claim_C5_keyword_overlap_score (n1 n2 : List Nat) (m : Nat) (hm : 1 ≤ m) :
    keyword_overlap_score n1 n2 m =
      (if m ≤ (extract_meaningful_keywords n1 ∩ extract_meaningful_keywords n2).card then
        (true, ((extract_meaningful_keywords n1 ∩ extract_meaningful_keywords n2).card : ℚ) /
          ((extract_meaningful_keywords n1 ∪ extract_meaningful_keywords n2).card : ℚ))
      else (false, 0)) := by
  have hempty : extract_meaningful_keywords ([] : List Nat) = ∅ := by decide
  by_cases h1 : n1 = [] ∨ n2 = []
  · have hc : (extract_meaningful_keywords n1 ∩ extract_meaningful_keywords n2).card = 0 := by
      rcases h1 with rfl | rfl
      · rw [hempty, Finset.empty_inter, Finset.card_empty]
      · rw [hempty, Finset.inter_empty, Finset.card_empty]
    rw [if_neg (by omega)]
    simp only [keyword_overlap_score, if_pos h1]
  · by_cases h2 : extract_meaningful_keywords n1 = ∅ ∨ extract_meaningful_keywords n2 = ∅
    · have hc : (extract_meaningful_keywords n1 ∩ extract_meaningful_keywords n2).card = 0 := by
        rcases h2 with h | h
        · rw [h, Finset.empty_inter, Finset.card_empty]
        · rw [h, Finset.inter_empty, Finset.card_empty]
      rw [if_neg (by omega)]
      simp only [keyword_overlap_score, if_neg h1, if_pos h2]
    · simp only [keyword_overlap_score, if_neg h1, if_neg h2]

/-- Witness for C5 at the spec's generic-words example: the names share
only stop/generic words, so there is no match. -/
theorem claim_C5_witness :
    keyword_overlap_score (ofStr "International Research Center")
      (ofStr "International Training Center") 2 = (false, 0) := by
  have h := claim_C5_keyword_overlap_score (ofStr "International Research Center")
    (ofStr "International Training Center") 2 (by norm_num)
  rw [h]
  with_unfolding_all decide

/-- C1 (code bug): on a retained best candidate with overall similarity
0.80 and no exact/core/variant or strong acronym signal, tier 4 of
`classify_record` evaluates `DuplicateStatus.POSSIBLE_DUPLICATE`, which
is not a member of the enum (`DuplicateStatus` declares `DUPLICATE`,
`POTENTIAL_DUPLICATE`, `NO_MATCH`), so the call raises `AttributeError`
instead of returning `POTENTIAL_DUPLICATE`. -/
theorem claim_C1_tier4_attribute_error :
    classify_record (some c1SimResults) =
      .error (.attributeError "POSSIBLE_DUPLICATE") := by
  with_unfolding_all rfl

/-- C3: every tuple actually returned by `classify_record` (tiers 4 and 5
raise instead of returning) has similarity in `[0,1]` given an input
score in `[0,1]`, `NO_MATCH` implies no matched id and similarity `0`,
and a non-empty reason string. -/
theorem claim_C3_classify_record_invariants (rs : Option SimilarityResults)
    (hs : ∀ r, rs = some r → 0 ≤ r.similarity_score ∧ r.similarity_score ≤ 1)
    (st : DuplicateStatus) (sim : ℚ) (reason : List Nat) (mid : Option Int)
    (hok : classify_record rs = .ok (st, sim, reason, mid)) :
    (0 ≤ sim ∧ sim ≤ 1) ∧
      (st = DuplicateStatus.NO_MATCH → mid = none ∧ sim = 0) ∧
      reason ≠ [] := by
  cases rs with
  | none =>
    simp only [classify_record, Except.ok.injEq, Prod.mk.injEq] at hok
    obtain ⟨rfl, rfl, rfl, rfl⟩ := hok
    exact ⟨⟨le_refl 0, by norm_num⟩, fun _ => ⟨rfl, rfl⟩, by decide⟩
  | some r =>
    obtain ⟨hr0, hr1⟩ := hs r rfl
    simp only [classify_record] at hok
    split_ifs at hok with t1 t2 t3 t4 t5
    · simp only [Except.ok.injEq, Prod.mk.injEq] at hok
      obtain ⟨rfl, rfl, rfl, rfl⟩ := hok
      refine ⟨⟨le_trans hr0 (le_max_left _ _), max_le hr1 (by norm_num)⟩,
        fun hc => absurd hc (by decide), ?_⟩
      exact pyOr_ne_nil _ _ (by decide)
    · simp only [Except.ok.injEq, Prod.mk.injEq] at hok
      obtain ⟨rfl, rfl, rfl, rfl⟩ := hok
      refine ⟨⟨hr0, hr1⟩, fun hc => absurd hc (by decide), ?_⟩
      exact append_ne_nil_left _ (append_ne_nil_left _ (by decide))
    · simp only [Except.ok.injEq, Prod.mk.injEq] at hok
      obtain ⟨rfl, rfl, rfl, rfl⟩ := hok
      refine ⟨⟨hr0, hr1⟩, fun hc => absurd hc (by decide), ?_⟩
      exact pyOr_ne_nil _ _ (append_ne_nil_left _ (append_ne_nil_left _ (by decide)))
    · simp only [Except.ok.injEq, Prod.mk.injEq] at hok
      obtain ⟨rfl, rfl, rfl, rfl⟩ := hok
      exact ⟨⟨le_refl 0, by norm_num⟩, fun _ => ⟨rfl, rfl⟩, by decide⟩

/-- Witness for C3: an exact-name candidate at similarity 0.97. -/
theorem claim_C3_witness :
    ((0 : ℚ) ≤ 97/100 ∧ (97/100 : ℚ) ≤ 1) ∧
      (DuplicateStatus.DUPLICATE = DuplicateStatus.NO_MATCH →
        (some 3 : Option Int) = none ∧ (97/100 : ℚ) = 0) ∧
      ofStr "Exact institution name match" ≠ [] :=
  claim_C3_classify_record_invariants (some c3SimResults)
    (fun r hr => by cases hr; exact ⟨by with_unfolding_all decide, by with_unfolding_all decide⟩)
    DuplicateStatus.DUPLICATE (97/100) (ofStr "Exact institution name match")
    (some 3) (by with_unfolding_all rfl)

theorem if_lt_eq_max (a b : ℚ) : (if a < b then b else a) = max a b := by
  rcases le_or_lt b a with h | h
  · rw [if_neg (not_lt.mpr h), max_eq_left h]
  · rw [if_pos h, max_eq_right (le_of_lt h)]

set_option maxRecDepth 100000 in
set_option maxHeartbeats 4000000 in
/-- C2, counterexample: scanning two registry entries whose fuzzy scores
against the uploaded record are 20/21 ≈ 0.952 and then 9/10, the second
(weaker) candidate still replaces the retained best candidate — the
retained similarity ends at 9/10 while the maximum candidate score seen
is 20/21, so a weaker candidate does not need to exceed the current best
to take over the retained slot. -/
theorem claim_C2_counterexample :
    (multi_strategy_match c2Uploaded.partner_name c2Uploaded.acronym
      c2RefA.partner_name c2RefA.acronym).match_type = ofStr "fuzzy" ∧
    (multi_strategy_match c2Uploaded.partner_name c2Uploaded.acronym
      c2RefA.partner_name c2RefA.acronym).confidence = 20/21 ∧
    (multi_strategy_match c2Uploaded.partner_name c2Uploaded.acronym
      c2RefB.partner_name c2RefB.acronym).match_type = ofStr "fuzzy" ∧
    (multi_strategy_match c2Uploaded.partner_name c2Uploaded.acronym
      c2RefB.partner_name c2RefB.acronym).confidence = 9/10 ∧
    (scanLoop (fun _ _ => 0) c2Uploaded none [c2RefA, c2RefB] (none, 0)).1.map
      BestMatch.similarity = some (9/10) ∧
    (scanLoop (fun _ _ => 0) c2Uploaded none [c2RefA, c2RefB] (none, 0)).2 = 20/21 ∧
    (9/10 : ℚ) < 20/21 := by
  refine ⟨?_, ?_, ?_, ?_, ?_, ?_, ?_⟩ <;> with_unfolding_all decide

/-- C2 (amended): a strong symbolic match (`exact` or `acronym` with
confidence ≥ 0.90) at the current registry entry stops the scan
immediately with that candidate retained and no further entries
examined; every other symbolic candidate (fuzzy, keyword)
unconditionally replaces the retained best candidate, while the scalar
`best_similarity` rises to the maximum symbolic confidence seen so far
and gates only the semantic fallback (a semantic candidate must strictly
exceed it). -/
theorem claim_C2_scan_behaviour (simFn : List ℚ → List ℚ → ℚ)
    (u : UploadedRecord) (upEmb : Option (List ℚ)) (c : ClarisaRecord)
    (rest : List ClarisaRecord) (bm : Option BestMatch) (bs : ℚ) :
    (((multi_strategy_match u.partner_name u.acronym c.partner_name
          c.acronym).match_type = ofStr "exact" ∨
        (multi_strategy_match u.partner_name u.acronym c.partner_name
          c.acronym).match_type = ofStr "acronym") →
      (9/10 : ℚ) ≤ (multi_strategy_match u.partner_name u.acronym c.partner_name
        c.acronym).confidence →
      scanLoop simFn u upEmb (c :: rest) (bm, bs) =
        (some (advancedCandidate c (multi_strategy_match u.partner_name u.acronym
          c.partner_name c.acronym)), bs)) ∧
    ((multi_strategy_match u.partner_name u.acronym c.partner_name
        c.acronym).match_type ≠ ofStr "no_match" →
      ¬(((multi_strategy_match u.partner_name u.acronym c.partner_name
            c.acronym).match_type = ofStr "exact" ∨
          (multi_strategy_match u.partner_name u.acronym c.partner_name
            c.acronym).match_type = ofStr "acronym") ∧
        (9/10 : ℚ) ≤ (multi_strategy_match u.partner_name u.acronym c.partner_name
          c.acronym).confidence) →
      scanLoop simFn u upEmb (c :: rest) (bm, bs) =
        scanLoop simFn u upEmb rest
          (scanStepSemantic simFn u upEmb c
            (some (advancedCandidate c (multi_strategy_match u.partner_name u.acronym
              c.partner_name c.acronym)))
            (max bs (multi_strategy_match u.partner_name u.acronym c.partner_name
              c.acronym).confidence))) := by
  constructor
  · intro hty h9
    have hne : (multi_strategy_match u.partner_name u.acronym c.partner_name
        c.acronym).match_type ≠ ofStr "no_match" := by
      rcases hty with h | h <;> rw [h] <;> decide
    simp only [scanLoop]
    rw [if_pos hne, if_pos ⟨hty, h9⟩]
  · intro hne hnot
    simp only [scanLoop]
    rw [if_pos hne, if_neg hnot, if_lt_eq_max]

/-- Witness for C2: an exact-name registry entry short-circuits the scan
with that candidate retained, independently of the rest of the
registry. -/
theorem claim_C2_witness :
    scanLoop (fun _ _ => 0) c2wUploaded none [c2wRefMatch, c2wRefOther] (none, 0) =
      (some (advancedCandidate c2wRefMatch
        (multi_strategy_match c2wUploaded.partner_name c2wUploaded.acronym
          c2wRefMatch.partner_name c2wRefMatch.acronym)), 0) :=
  (claim_C2_scan_behaviour (fun _ _ => 0) c2wUploaded none c2wRefMatch
      [c2wRefOther] none 0).1
    (Or.inl (by with_unfolding_all decide)) (by with_unfolding_all decide)

/-- C9, counterexample: a batch of one valid row and one row missing
`partner_name` does not yield one result plus one row error — the
missing required field is reported by the parse stage, and any parse
error aborts the whole upload with HTTP 400 before any record is
processed. -/
theorem claim_C9_counterexample :
    upload_and_detect_duplicates (fun _ _ => 0) (fun _ => none) (fun _ => none) []
      [c9ValidRow, c9MalformedRow] = .error 400 ∧
    (parse_excel_rows [c9ValidRow, c9MalformedRow]).2 =
      [ofStr "Row 3: Missing or empty 'partner_name'"] ∧
    (parse_excel_rows [c9ValidRow, c9MalformedRow]).1.length = 1 := by
  refine ⟨?_, ?_, ?_⟩
  · with_unfolding_all rfl
  · decide
  · decide

/-- C9 (amended): within the per-record processing loop, every row-level
exception is caught and recorded as one entry of the error list without
aborting the remaining records, so the result rows and row errors
together account for every processed record; records that fail the
upfront required-field validation, however, abort the whole upload with
HTTP 400 at parse time. -/
theorem claim_C9_per_record_isolation (simFn : List ℚ → List ℚ → ℚ)
    (genEmb : List Nat → Option (List ℚ)) (countriesMap : Int → Option (List Nat))
    (registry : List ClarisaRecord) (records : List UploadedRecord) :
    (processRecords simFn genEmb countriesMap registry records).1.length +
      (processRecords simFn genEmb countriesMap registry records).2.length =
      records.length := by
  induction records with
  | nil => rfl
  | cons u rest ih =>
    simp only [processRecords]
    cases hp : processOne simFn genEmb countriesMap registry u with
    | ok r => simp only [hp, List.length_cons]; omega
    | error e => simp only [hp, List.length_cons]; omega

end PartnerDetector
